import Mathlib

/-
Verification of the core of the Chess-Statistics-Toolkit repository
(`utils.py`): the streaming PGN record parser `get_game_data_lichess`,
the chunker `_chunks`, and the bounded-concurrency batch-fetch engine
`_concurrent_function` (whose returned function is `thread`, built on
`thread_attempt_get`).

The embedding is shallow: each Python function is translated into an
executable Lean function over explicit state.  Python runtime failures
(NameError from an unbound variable, IndexError from an out-of-range
subscript) are modelled by an error type returned through `Except`;
HTTP failures of the fetch operation are modelled by their status code.
The nondeterministic completion order of the thread pool is modelled by
processing each chunk in submission order, which is faithful for every
set-level property stated below.  The Python retry loop `while
failed_requests:` has no bound, so the embedding `thread` takes a fuel
argument; `.ok none` means the fuel ran out with requests still
pending, i.e. the Python loop would still be running.  The engine
embedding also models the shadowing of the executor binding: in the
source, `with cf.ThreadPoolExecutor(...) as exc:` and
`except urllib.error.HTTPError as exc:` bind the same local `exc`, and
Python deletes an `except ... as` name when the handler exits, so any
caught 404/429 makes the next chunk's `exc.submit` raise NameError;
the state carries an `excDeleted` flag reproducing this.
-/

set_option autoImplicit false

namespace ChessStats

/-! ### The record stream parser `get_game_data_lichess` -/

/-- Python runtime errors that `get_game_data_lichess` can raise:
`nameError` models the NameError raised by storing into the unbound
variable `current_game`, and `indexError` models the IndexError raised
by `quote_indices[0]` / `quote_indices[1]` on a tag line with fewer
than two quote characters.  Neither carries any line information,
exactly as in the source. -/
inductive PyErr where
  | nameError
  | indexError
  deriving DecidableEq, Repr

/-- A line of the decompressed archive, as a list of characters. -/
abbrev Line := List Char

/-- A game record: the Python dict `current_game`, as an ordered
association list (Python dicts preserve insertion order and update
keys in place). -/
abbrev Record := List (String × String)

/-- The whitespace characters stripped by Python `rstrip`. -/
def isPySpace (c : Char) : Bool :=
  c = ' ' || c = '\t' || c = '\n' || c = '\r' || c = Char.ofNat 11 || c = Char.ofNat 12

/-- Python `line.rstrip()`: remove trailing whitespace. -/
def pyRstrip (l : List Char) : List Char :=
  (l.reverse.dropWhile isPySpace).reverse

/-- Split a character list at its first `"` character, returning the
characters before it and the characters after it; `none` when the list
has no quote.  Two applications model `quote_indices[0]` and
`quote_indices[1]` in the source. -/
def splitAtQuote : List Char → Option (List Char × List Char)
  | [] => none
  | c :: cs =>
    if c = '"' then some ([], cs)
    else
      match splitAtQuote cs with
      | none => none
      | some (pre, rest) => some (c :: pre, rest)

/-- Parse a tag line (with its leading `[` already dropped) into
`(tag_name, tag_value)`: the name is everything before the first quote
right-stripped, the value everything strictly between the first and
second quote.  Fewer than two quotes raises IndexError, as the source
subscripts `quote_indices` do. -/
def parseTag (l : List Char) : Except PyErr (String × String) :=
  match splitAtQuote l with
  | none => .error .indexError
  | some (pre, rest) =>
    match splitAtQuote rest with
    | none => .error .indexError
    | some (val, _) => .ok (String.mk (pyRstrip pre), String.mk val)

/-- Python dict assignment `d[k] = v`: update the key in place if
present, otherwise append the pair. -/
def setTag : Record → String → String → Record
  | [], k, v => [(k, v)]
  | (k', v') :: rest, k, v =>
    if k' = k then (k, v) :: rest else (k', v') :: setTag rest k v

/-- The loop state of `get_game_data_lichess`: the counter
`games_analyzed`, the variable `current_game` (`none` while it is
still unbound), and the sequence of records yielded so far. -/
structure PgnSt where
  games : Nat
  current : Option Record
  out : List Record
  deriving Repr

/-- The test `games_analyzed > max_games`, where `none` models the
default `math.inf` (never exceeded). -/
def gtMax (games : Nat) : Option Nat → Bool
  | none => false
  | some m => games > m

/-- One iteration of the parser loop on one line.  Returns the new
state and `true` to continue scanning, or the new state and `false`
when the `break` on `games_analyzed > max_games` fires, or a `PyErr`
when the Python code would raise. -/
def pgnStep (tags : List String) (maxGames : Option Nat) (st : PgnSt) (line : Line) :
    Except PyErr (PgnSt × Bool) :=
  if line = ['\n'] then .ok (st, true)
  else if line.head? ≠ some '[' then
    if "Movetext" ∈ tags then
      match st.current with
      | none => .error .nameError
      | some g => .ok ({ st with current := some (setTag g "Movetext" (String.mk (pyRstrip line))) }, true)
    else .ok (st, true)
  else
    match parseTag (line.drop 1) with
    | .error e => .error e
    | .ok (name, val) =>
      if name = "Event" then
        match st.games, st.current with
        | _ + 1, none => .error .nameError
        | g + 1, some prev =>
          if gtMax (g + 2) maxGames then .ok (⟨g + 2, some [], st.out ++ [prev]⟩, false)
          else if name ∈ tags then .ok (⟨g + 2, some (setTag [] name val), st.out ++ [prev]⟩, true)
          else .ok (⟨g + 2, some [], st.out ++ [prev]⟩, true)
        | 0, _ =>
          if gtMax 1 maxGames then .ok (⟨1, some [], st.out⟩, false)
          else if name ∈ tags then .ok (⟨1, some (setTag [] name val), st.out⟩, true)
          else .ok (⟨1, some [], st.out⟩, true)
      else if name ∈ tags then
        match st.current with
        | none => .error .nameError
        | some g => .ok ({ st with current := some (setTag g name val) }, true)
      else .ok (st, true)

/-- Run the parser loop over the remaining lines.  At end of stream the
loop simply ends (there is no final `yield` in the source), so only
the records already yielded are returned; a `break` likewise returns
the records yielded so far. -/
def runLines (tags : List String) (maxGames : Option Nat) : PgnSt → List Line → Except PyErr (List Record)
  | st, [] => .ok st.out
  | st, l :: ls =>
    match pgnStep tags maxGames st l with
    | .error e => .error e
    | .ok (st', true) => runLines tags maxGames st' ls
    | .ok (st', false) => .ok st'.out

/-- `get_game_data_lichess` on the decompressed lines of the archive:
the full sequence of records the generator yields (or the Python error
it raises).  `maxGames = none` models the default `max_games =
math.inf`. -/
def get_game_data_lichess (tags : List String) (maxGames : Option Nat) (lines : List Line) :
    Except PyErr (List Record) :=
  runLines tags maxGames ⟨0, none, []⟩ lines

/-! ### The chunker `_chunks` -/

/-- Fuel-driven helper for `_chunks`; with fuel at least the list
length and a positive chunk size it produces the slices
`input_list[i:i+chunk_size]` for `i = 0, chunk_size, 2*chunk_size, ...`
exactly as the `range`-based generator in the source does. -/
def chunksAux {α : Type} (k : Nat) : Nat → List α → List (List α)
  | _, [] => []
  | 0, _ :: _ => []
  | fuel + 1, x :: xs => (x :: xs).take k :: chunksAux k fuel ((x :: xs).drop k)

/-- `_chunks(input_list, chunk_size)`: successive `chunk_size`-sized
slices of `input_list`. -/
def _chunks {α : Type} (l : List α) (k : Nat) : List (List α) :=
  chunksAux k l.length l

/-! ### The batch fetch engine `_concurrent_function` -/

/-- The outcome of one invocation of the wrapped fetch operation
`func`: a decoded value, or an `urllib.error.HTTPError` carrying its
status code. -/
abbrev OpResult (β : Type) := Except Nat β

/-- The behaviour of the fetch operation over time is modelled as a
function of the item and of how many invocations of that item happened
before (its attempt number). -/
abbrev Op (α β : Type) := α → Nat → OpResult β

/-- What a `thread_attempt_get` call can raise: a re-raised
`urllib.error.HTTPError` with its status code, or the NameError from
the deleted executor binding.  The source binds the executor with
`with cf.ThreadPoolExecutor(...) as exc:` but the handler
`except urllib.error.HTTPError as exc:` shadows that same local, and
Python implicitly deletes an `except ... as` name when the handler
exits — so after any caught 404/429 the next chunk evaluates
`exc.submit` on a deleted variable and raises NameError. -/
inductive ThreadErr where
  | http (code : Nat)
  | nameError
  deriving DecidableEq, Repr

/-- The mutable state of one `thread_attempt_get` call: the per-item
invocation counts (modelling the passage of time at the remote
service), the accumulated `results`, the rate-limited
`failed_requests`, and `excDeleted` — whether the executor binding
`exc` has been deleted by the exit of an `except ... as exc` handler
during this call. -/
structure AttSt (α β : Type) where
  cnt : α → Nat
  results : List β
  failed : List α
  excDeleted : Bool

/-- Process one completed future: append its value to `results`; on an
HTTPError append the item to `failed_requests` when the code is 429,
silently drop it when the code is 404, and re-raise any other code.
Handling a 429 or a 404 exits the `except ... as exc` handler
normally, which deletes the local `exc` and so clobbers the executor
binding (`excDeleted := true`); re-raising propagates the HTTPError
itself, since `exc` is still bound inside the handler. -/
def procItem {α β : Type} [DecidableEq α] (op : Op α β) (st : AttSt α β) (x : α) :
    Except ThreadErr (AttSt α β) :=
  let cnt2 : α → Nat := fun y => if y = x then st.cnt x + 1 else st.cnt y
  match op x (st.cnt x) with
  | .ok v => .ok ⟨cnt2, st.results ++ [v], st.failed, st.excDeleted⟩
  | .error c =>
    if c = 429 then .ok ⟨cnt2, st.results, st.failed ++ [x], true⟩
    else if c = 404 then .ok ⟨cnt2, st.results, st.failed, true⟩
    else .error (.http c)

/-- Process the completed futures of one chunk in order.  No check of
`excDeleted` happens here: within a chunk the inner loop never touches
the executor binding, so scanning the chunk's completed futures keeps
going after a caught 404/429. -/
def procItems {α β : Type} [DecidableEq α] (op : Op α β) :
    AttSt α β → List α → Except ThreadErr (AttSt α β)
  | st, [] => .ok st
  | st, x :: xs =>
    match procItem op st x with
    | .error c => .error c
    | .ok st2 => procItems op st2 xs

/-- Process a list of chunks in order, each chunk completing before the
next is submitted.  Submitting a chunk evaluates `exc.submit(func, i)`:
when the executor binding has been deleted by an earlier handled
HTTPError, this raises NameError before any operation of that chunk is
invoked. -/
def procChunks {α β : Type} [DecidableEq α] (op : Op α β) :
    List (List α) → AttSt α β → Except ThreadErr (AttSt α β)
  | [], st => .ok st
  | c :: cs, st =>
    if st.excDeleted then .error .nameError
    else
      match procItems op st c with
      | .error e => .error e
      | .ok st2 => procChunks op cs st2

/-- `thread_attempt_get(data)`: split `data` into chunks of
`max_workers` items, run every chunk through the pool, and return the
accumulated results and rate-limited requests (plus the advanced
invocation counts).  A non-404, non-429 HTTPError is re-raised, and a
chunk submitted after any caught HTTPError raises NameError from the
deleted `exc` binding.  Each call opens a fresh `with ... as exc`
block, so `excDeleted` starts out false. -/
def thread_attempt_get {α β : Type} [DecidableEq α] (op : Op α β) (mw : Nat) (cnt : α → Nat)
    (data : List α) : Except ThreadErr (AttSt α β) :=
  procChunks op (_chunks data mw) ⟨cnt, [], [], false⟩

/-- The `while failed_requests:` retry loop of `thread`, with explicit
fuel bounding the number of retry passes; `.ok none` means the fuel
ran out while requests were still rate-limited (the Python loop would
still be running). -/
def threadLoop {α β : Type} [DecidableEq α] (op : Op α β) (mw : Nat) :
    Nat → (α → Nat) → List β → List α → Except ThreadErr (Option (List β))
  | _, _, res, [] => .ok (some res)
  | 0, _, _, _ :: _ => .ok none
  | fuel + 1, cnt, res, x :: xs =>
    match thread_attempt_get op mw cnt (x :: xs) with
    | .error c => .error c
    | .ok st => threadLoop op mw fuel st.cnt (res ++ st.results) st.failed

/-- `thread(data)`, the function `_concurrent_function` returns: one
`thread_attempt_get` pass over `data`, then retry passes over the
rate-limited requests until none remain (or the fuel runs out). -/
def thread {α β : Type} [DecidableEq α] (op : Op α β) (mw : Nat) (fuel : Nat)
    (data : List α) : Except ThreadErr (Option (List β)) :=
  match thread_attempt_get op mw (fun _ => 0) data with
  | .error c => .error c
  | .ok st => threadLoop op mw fuel st.cnt st.results st.failed

/-! ### Line classification for the parser theorems -/

/-- A line the scanner passes over without touching `current_game` and
without error, in any state: a blank line, a non-tag line while
`"Movetext"` is not in the tag filter, or a well-formed tag line whose
name is neither the boundary `"Event"` nor in the tag filter. -/
def inertLine (tags : List String) (l : Line) : Bool :=
  if l = ['\n'] then true
  else if l.head? ≠ some '[' then decide ("Movetext" ∉ tags)
  else
    match parseTag (l.drop 1) with
    | .ok (n, _) => decide (n ≠ "Event" ∧ n ∉ tags)
    | .error _ => false

/-- A line that is processed without error while a record is open and
does not start a new record: a blank line, a non-tag (movetext) line,
or a well-formed tag line whose name is not the boundary `"Event"`. -/
def goodBodyLine (l : Line) : Bool :=
  if l = ['\n'] then true
  else if l.head? ≠ some '[' then true
  else
    match parseTag (l.drop 1) with
    | .ok (n, _) => decide (n ≠ "Event")
    | .error _ => false

/-- A line that stores into `current_game` without being an `"Event"`
boundary: a non-tag line while `"Movetext"` is in the tag filter, or a
well-formed tag line whose name is in the tag filter but is not
`"Event"`.  On such a line the source executes
`current_game[...] = ...`, which raises NameError when no record has
been started yet. -/
def storingLine (tags : List String) (l : Line) : Bool :=
  if l = ['\n'] then false
  else if l.head? ≠ some '[' then decide ("Movetext" ∈ tags)
  else
    match parseTag (l.drop 1) with
    | .ok (n, _) => decide (n ≠ "Event" ∧ n ∈ tags)
    | .error _ => false

/-- The effect of one non-boundary line on the open record. -/
def bodyEffect (tags : List String) (g : Record) (l : Line) : Record :=
  if l = ['\n'] then g
  else if l.head? ≠ some '[' then
    if "Movetext" ∈ tags then setTag g "Movetext" (String.mk (pyRstrip l)) else g
  else
    match parseTag (l.drop 1) with
    | .ok (n, v) => if n = "Event" then g else if n ∈ tags then setTag g n v else g
    | .error _ => g

/-- The fresh record created by an `"Event"` boundary line with value
`v`: empty, except that the `Event` tag itself is stored when
`"Event"` is in the tag filter. -/
def eventInit (tags : List String) (v : String) : Record :=
  if "Event" ∈ tags then [("Event", v)] else []

/-! ### Concrete fetch operations used by the engine claim theorems -/

/-- Item 2 is rate-limited on its first invocation and succeeds from
the second on; every other item always succeeds.  Every item
eventually succeeds, so this operation satisfies the eventual-retry
claim's hypothesis. -/
def opC2 : Op Nat Nat := fun x m =>
  if x = 2 ∧ m = 0 then .error 429 else .ok (x + 100)

/-- Item 1 never exists (HTTP 404); item 2 is rate-limited on its
first invocation and succeeds from the second on; every other item
always succeeds. -/
def opC3 : Op Nat Nat := fun x m =>
  if x = 1 then .error 404
  else if x = 2 ∧ m = 0 then .error 429 else .ok (x + 100)

/-- Every invocation succeeds with ten times the item. -/
def opC4 : Op Nat Nat := fun x _ => .ok (x * 10)

/-- Item 0 never exists (HTTP 404); every other item fails with the
unclassified HTTP error 500. -/
def opC8 : Op Nat Nat := fun x _ =>
  if x = 0 then .error 404 else .error 500

/-! ## Theorems -/

/-! ### Parser step lemmas -/

theorem pgnStep_inert (tags : List String) (mG : Option Nat) (st : PgnSt) (l : Line)
    (h : inertLine tags l = true) :
    pgnStep tags mG st l = .ok (st, true) := by
  by_cases hb : l = ['\n']
  · simp [pgnStep, hb]
  · by_cases hh : l.head? = some '['
    · cases hp : parseTag l.tail with
      | error e => simp [inertLine, hb, hh, hp] at h
      | ok nv =>
        obtain ⟨n, v⟩ := nv
        simp [inertLine, hb, hh, hp] at h
        simp [pgnStep, hb, hh, hp, h.1, h.2]
    · simp [inertLine, hb, hh] at h
      simp [pgnStep, hb, hh, h]

theorem pgnStep_goodBody (tags : List String) (mG : Option Nat) (gs : Nat) (g : Record)
    (out : List Record) (l : Line) (h : goodBodyLine l = true) :
    pgnStep tags mG ⟨gs, some g, out⟩ l = .ok (⟨gs, some (bodyEffect tags g l), out⟩, true) := by
  by_cases hb : l = ['\n']
  · simp [pgnStep, bodyEffect, hb]
  · by_cases hh : l.head? = some '['
    · cases hp : parseTag l.tail with
      | error e => simp [goodBodyLine, hb, hh, hp] at h
      | ok nv =>
        obtain ⟨n, v⟩ := nv
        simp [goodBodyLine, hb, hh, hp] at h
        by_cases ht : n ∈ tags
        · simp [pgnStep, bodyEffect, hb, hh, hp, h, ht]
        · simp [pgnStep, bodyEffect, hb, hh, hp, h, ht]
    · by_cases hm : "Movetext" ∈ tags
      · simp [pgnStep, bodyEffect, hb, hh, hm]
      · simp [pgnStep, bodyEffect, hb, hh, hm]

theorem runLines_append_inert (tags : List String) (mG : Option Nat) (st : PgnSt)
    (pre ls : List Line) (h : ∀ p ∈ pre, inertLine tags p = true) :
    runLines tags mG st (pre ++ ls) = runLines tags mG st ls := by
  induction pre with
  | nil => rfl
  | cons p ps ih =>
    have hp := h p (by simp)
    simp only [List.cons_append, runLines, pgnStep_inert tags mG st p hp]
    exact ih fun q hq => h q (by simp [hq])

theorem runLines_append_body (tags : List String) (mG : Option Nat) (body : List Line)
    (h : ∀ l ∈ body, goodBodyLine l = true) :
    ∀ (gs : Nat) (g : Record) (out : List Record) (ls : List Line),
      runLines tags mG ⟨gs, some g, out⟩ (body ++ ls) =
        runLines tags mG ⟨gs, some (body.foldl (bodyEffect tags) g), out⟩ ls := by
  induction body with
  | nil => intro gs g out ls; rfl
  | cons b bs ih =>
    intro gs g out ls
    have hb := h b (by simp)
    simp only [List.cons_append, runLines, pgnStep_goodBody tags mG gs g out b hb,
      List.foldl_cons]
    exact ih (fun q hq => h q (by simp [hq])) gs (bodyEffect tags g b) out ls

theorem pgnStep_event_start (tags : List String) (mG : Option Nat) (t : List Char) (v : String)
    (out : List Record) (hp : parseTag t = .ok ("Event", v)) (hg : gtMax 1 mG = false) :
    pgnStep tags mG ⟨0, none, out⟩ ('[' :: t) = .ok (⟨1, some (eventInit tags v), out⟩, true) := by
  by_cases he : "Event" ∈ tags
  · simp [pgnStep, hp, hg, eventInit, he, setTag]
  · simp [pgnStep, hp, hg, eventInit, he]

theorem lookup_setTag (k v : String) : ∀ g : Record, (setTag g k v).lookup k = some v := by
  intro g
  induction g with
  | nil => simp [setTag, List.lookup]
  | cons p rest ih =>
    obtain ⟨k', v'⟩ := p
    by_cases hk : k' = k
    · simp [setTag, hk, List.lookup]
    · have hbne : (k == k') = false := beq_eq_false_iff_ne.mpr (Ne.symm hk)
      simp [setTag, hk, List.lookup, hbne, ih]

theorem lookup_foldl_movetext (tags : List String) (hm : "Movetext" ∈ tags) :
    ∀ (body : List Line), (∀ l ∈ body, l ≠ ['\n'] ∧ l.head? ≠ some '[') →
      ∀ (g : Record) (b : Line), body.getLast? = some b →
        (body.foldl (bodyEffect tags) g).lookup "Movetext" = some (String.mk (pyRstrip b)) := by
  intro body
  induction body with
  | nil => intro _ g b h; simp at h
  | cons x xs ih =>
    intro hbody g b h
    have hx := hbody x (by simp)
    have hx_eff : bodyEffect tags g x = setTag g "Movetext" (String.mk (pyRstrip x)) := by
      simp [bodyEffect, hx.1, hx.2, hm]
    cases xs with
    | nil =>
      simp only [List.getLast?_singleton, Option.some.injEq] at h
      subst h
      simp [List.foldl_cons, hx_eff, lookup_setTag]
    | cons y ys =>
      have h' : (y :: ys).getLast? = some b := by
        rw [List.getLast?_cons_cons] at h; exact h
      simp only [List.foldl_cons]
      exact ih (fun l hl => hbody l (by simp [hl])) _ b h'

/-! ### Chunker lemmas -/

theorem chunksAux_nil {α : Type} (k fuel : Nat) : chunksAux (α := α) k fuel [] = [] := by
  cases fuel <;> rfl

theorem chunksAux_flatten {α : Type} (k : Nat) (hk : 0 < k) :
    ∀ (fuel : Nat) (l : List α), l.length ≤ fuel → (chunksAux k fuel l).flatten = l := by
  intro fuel
  induction fuel with
  | zero =>
    intro l hl
    have : l = [] := List.length_eq_zero.mp (Nat.le_zero.mp hl)
    subst this; rfl
  | succ f ih =>
    intro l hl
    cases l with
    | nil => rfl
    | cons x xs =>
      simp only [chunksAux, List.flatten_cons]
      rw [ih ((x :: xs).drop k) ?_]
      · exact List.take_append_drop k (x :: xs)
      · rw [List.length_drop]
        simp only [List.length_cons] at hl ⊢
        omega

theorem chunksAux_length_le {α : Type} (k : Nat) :
    ∀ (fuel : Nat) (l : List α) (c : List α), c ∈ chunksAux k fuel l → c.length ≤ k := by
  intro fuel
  induction fuel with
  | zero => intro l c hc; cases l <;> simp [chunksAux] at hc
  | succ f ih =>
    intro l c hc
    cases l with
    | nil => simp [chunksAux] at hc
    | cons x xs =>
      simp only [chunksAux, List.mem_cons] at hc
      rcases hc with rfl | hc
      · exact List.length_take_le k (x :: xs)
      · exact ih _ _ hc

theorem chunksAux_dropLast_length {α : Type} (k : Nat) (hk : 0 < k) :
    ∀ (fuel : Nat) (l : List α), l.length ≤ fuel →
      ∀ c ∈ (chunksAux k fuel l).dropLast, c.length = k := by
  intro fuel
  induction fuel with
  | zero =>
    intro l hl c hc
    have : l = [] := List.length_eq_zero.mp (Nat.le_zero.mp hl)
    subst this
    simp [chunksAux_nil] at hc
  | succ f ih =>
    intro l hl c hc
    cases l with
    | nil => simp [chunksAux] at hc
    | cons x xs =>
      by_cases hd : (x :: xs).drop k = []
      · simp [chunksAux, hd, chunksAux_nil] at hc
      · have hlen : ((x :: xs).drop k).length ≤ f := by
          rw [List.length_drop]
          simp only [List.length_cons] at hl ⊢
          omega
        have hne : chunksAux k f ((x :: xs).drop k) ≠ [] := by
          cases hdk : (x :: xs).drop k with
          | nil => exact absurd hdk hd
          | cons y ys =>
            cases f with
            | zero =>
              exfalso
              rw [hdk] at hlen
              simp at hlen
            | succ f' => simp [chunksAux]
        rw [show chunksAux k (f + 1) (x :: xs) =
              (x :: xs).take k :: chunksAux k f ((x :: xs).drop k) from rfl,
          List.dropLast_cons_of_ne_nil hne] at hc
        rcases List.mem_cons.mp hc with rfl | hc'
        · have hk_lt : k < (x :: xs).length := by
            by_contra hcon
            exact hd (List.drop_eq_nil_of_le (Nat.le_of_not_lt hcon))
          rw [List.length_take]
          omega
        · exact ih _ hlen c hc'

/-! ### Claim theorems for the chunker and the parser -/

/-- Claim C6: for every list `S` and positive chunk size `K`, the
chunker `_chunks` yields a sequence of contiguous slices whose
concatenation equals `S` exactly (so no item is omitted or
duplicated), every chunk has length at most `K`, and every chunk
except possibly the final one has length exactly `K`. -/
theorem c6_chunks_spec {α : Type} (l : List α) (k : Nat) (hk : 0 < k) :
    (_chunks l k).flatten = l ∧ (∀ c ∈ _chunks l k, c.length ≤ k) ∧
      ∀ c ∈ (_chunks l k).dropLast, c.length = k :=
  ⟨chunksAux_flatten k hk l.length l le_rfl,
   fun c hc => chunksAux_length_le k l.length l c hc,
   fun c hc => chunksAux_dropLast_length k hk l.length l le_rfl c hc⟩

theorem c6_chunks_spec_witness :
    0 < 2 ∧ ((_chunks [1, 2, 3, 4, 5] 2).flatten = [1, 2, 3, 4, 5] ∧
      (∀ c ∈ _chunks [1, 2, 3, 4, 5] 2, c.length ≤ 2) ∧
      ∀ c ∈ (_chunks [1, 2, 3, 4, 5] 2).dropLast, c.length = 2) :=
  ⟨by decide, c6_chunks_spec [1, 2, 3, 4, 5] 2 (by decide)⟩

/-- Claim C1 (code bug): on the spec's own two-record archive, parsed
with tag filter `{"Event", "Result"}` (boundary field `Event`), the
source yields only the FIRST record.  The generator loop in
`get_game_data_lichess` yields a record only when the next `Event`
boundary is recognized and contains no yield after the loop, so the
final record, still open at end-of-stream, is silently dropped —
contradicting the claim that exactly two mappings are produced and
that the final record is emitted at end-of-stream. -/
theorem c1_final_record_dropped :
    get_game_data_lichess ["Event", "Result"] none
      ["[Event \"Rated Blitz game\"]\n".data, "[Result \"1-0\"]\n".data, "\n".data,
       "[Event \"Rated Bullet game\"]\n".data, "[Result \"0-1\"]\n".data] =
      .ok [[("Event", "Rated Blitz game"), ("Result", "1-0")]] := by rfl

/-- Claim C5 (code bug): on a tag line with fewer than two quote
characters the source raises a bare IndexError (from subscripting
`quote_indices`), carrying no line number and being exactly the
"unrelated index error" the claim says must not happen; no `ParseError`
type exists anywhere in the source. -/
theorem c5_index_error_on_missing_quote :
    get_game_data_lichess ["Event", "Result"] none ["[Event \"Rated]\n".data] =
      .error .indexError := by rfl

/-- Claim C7: for every archive consisting of inert lines, a first
record (an `Event` boundary line followed by well-formed non-boundary
body lines), a second `Event` boundary line and then anything at all
(in particular two or more further records), parsing with
`max_games = 1` yields exactly one record — the first record, emitted
when the second boundary is recognized — and scanning halts without
emitting the record being started.  The tail `rest` is completely
arbitrary (it may even be malformed), which shows scanning halts
immediately at the second boundary. -/
theorem c7_max_records_one (tags : List String) (pre body rest : List Line)
    (t1 t2 : List Char) (v1 v2 : String)
    (hpre : ∀ p ∈ pre, inertLine tags p = true)
    (h1 : parseTag t1 = .ok ("Event", v1))
    (hbody : ∀ l ∈ body, goodBodyLine l = true)
    (h2 : parseTag t2 = .ok ("Event", v2)) :
    get_game_data_lichess tags (some 1)
        (pre ++ ('[' :: t1) :: (body ++ ('[' :: t2) :: rest)) =
      .ok [body.foldl (bodyEffect tags) (eventInit tags v1)] := by
  unfold get_game_data_lichess
  rw [runLines_append_inert tags (some 1) ⟨0, none, []⟩ pre _ hpre]
  have hstep1 := pgnStep_event_start tags (some 1) t1 v1 [] h1 (by simp [gtMax])
  simp only [runLines, hstep1]
  rw [runLines_append_body tags (some 1) body hbody 1 (eventInit tags v1) []]
  have hstep2 : pgnStep tags (some 1)
      ⟨1, some (body.foldl (bodyEffect tags) (eventInit tags v1)), []⟩ ('[' :: t2) =
      .ok (⟨2, some [], [body.foldl (bodyEffect tags) (eventInit tags v1)]⟩, false) := by
    simp [pgnStep, h2, gtMax]
  simp only [runLines, hstep2]

theorem c7_max_records_one_witness :
    (∀ p ∈ [("\n".data : Line)], inertLine ["Event", "Result"] p = true) ∧
    parseTag "Event \"A\"]\n".data = .ok ("Event", "A") ∧
    (∀ l ∈ [("[Result \"1-0\"]\n".data : Line)], goodBodyLine l = true) ∧
    parseTag "Event \"B\"]\n".data = .ok ("Event", "B") ∧
    get_game_data_lichess ["Event", "Result"] (some 1)
        (["\n".data] ++ ('[' :: "Event \"A\"]\n".data) ::
          (["[Result \"1-0\"]\n".data] ++ ('[' :: "Event \"B\"]\n".data) ::
            ["[Bad line\n".data])) =
      .ok [[("Event", "A"), ("Result", "1-0")]] :=
  ⟨by decide, by rfl, by decide, by rfl,
   c7_max_records_one ["Event", "Result"] ["\n".data] ["[Result \"1-0\"]\n".data]
     ["[Bad line\n".data] "Event \"A\"]\n".data "Event \"B\"]\n".data "A" "B"
     (by decide) (by rfl) (by decide) (by rfl)⟩

/-- Claim C9: for every stream whose lines before some storing line
are all inert (so no `Event` boundary has been seen), the storing line
— a free-text line while `"Movetext"` is in the tag filter, or a
non-boundary tag line whose name is in the tag filter — makes the
parser fail with the unhandled name-binding error (NameError) from the
unbound variable `current_game`: no open record exists before the
first boundary marker. -/
theorem c9_store_before_boundary (tags : List String) (mG : Option Nat)
    (pre : List Line) (l : Line) (rest : List Line)
    (hpre : ∀ p ∈ pre, inertLine tags p = true)
    (hl : storingLine tags l = true) :
    get_game_data_lichess tags mG (pre ++ l :: rest) = .error .nameError := by
  unfold get_game_data_lichess
  rw [runLines_append_inert tags mG ⟨0, none, []⟩ pre _ hpre]
  have hstep : pgnStep tags mG ⟨0, none, []⟩ l = .error .nameError := by
    by_cases hb : l = ['\n']
    · simp [storingLine, hb] at hl
    · by_cases hh : l.head? = some '['
      · cases hp : parseTag l.tail with
        | error e => simp [storingLine, hb, hh, hp] at hl
        | ok nv =>
          obtain ⟨n, v⟩ := nv
          simp [storingLine, hb, hh, hp] at hl
          simp [pgnStep, hb, hh, hp, hl.1, hl.2]
      · simp [storingLine, hb, hh] at hl
        simp [pgnStep, hb, hh, hl]
  simp only [runLines, hstep]

theorem c9_store_before_boundary_witness :
    (∀ p ∈ [("\n".data : Line)], inertLine ["Event", "Result"] p = true) ∧
    storingLine ["Event", "Result"] "[Result \"1-0\"]\n".data = true ∧
    get_game_data_lichess ["Event", "Result"] none
        (["\n".data] ++ "[Result \"1-0\"]\n".data :: []) = .error .nameError :=
  ⟨by decide, by decide,
   c9_store_before_boundary ["Event", "Result"] none ["\n".data]
     "[Result \"1-0\"]\n".data [] (by decide) (by decide)⟩

/-- Claim C10: when `"Movetext"` is in the tag filter and a record's
free-text body spans several consecutive non-blank non-tag lines, each
body line overwrites the previous one under the key `"Movetext"`, so
the record emitted at the next boundary retains only the right-stripped
text of the LAST body line. -/
theorem c10_movetext_last_line (tags : List String) (t1 t2 : List Char) (v1 v2 : String)
    (body : List Line) (b : Line)
    (hm : "Movetext" ∈ tags)
    (h1 : parseTag t1 = .ok ("Event", v1))
    (hbody : ∀ l ∈ body, l ≠ ['\n'] ∧ l.head? ≠ some '[')
    (hlast : body.getLast? = some b)
    (h2 : parseTag t2 = .ok ("Event", v2)) :
    ∃ r, get_game_data_lichess tags none (('[' :: t1) :: (body ++ [('[' :: t2)])) = .ok [r] ∧
      r.lookup "Movetext" = some (String.mk (pyRstrip b)) := by
  refine ⟨body.foldl (bodyEffect tags) (eventInit tags v1), ?_, ?_⟩
  · unfold get_game_data_lichess
    have hbody' : ∀ l ∈ body, goodBodyLine l = true := by
      intro l hlm
      have := hbody l hlm
      simp [goodBodyLine, this.1, this.2]
    have hstep1 := pgnStep_event_start tags none t1 v1 [] h1 (by simp [gtMax])
    simp only [runLines, hstep1]
    rw [runLines_append_body tags none body hbody' 1 (eventInit tags v1) []]
    have hstep2 : pgnStep tags none
        ⟨1, some (body.foldl (bodyEffect tags) (eventInit tags v1)), []⟩ ('[' :: t2) =
        .ok (⟨2, some (eventInit tags v2),
          [body.foldl (bodyEffect tags) (eventInit tags v1)]⟩, true) := by
      by_cases he : "Event" ∈ tags
      · simp [pgnStep, h2, gtMax, eventInit, he, setTag]
      · simp [pgnStep, h2, gtMax, eventInit, he]
    simp only [runLines, hstep2]
  · exact lookup_foldl_movetext tags hm body hbody (eventInit tags v1) b hlast

theorem c10_movetext_last_line_witness :
    ("Movetext" ∈ ["Movetext"]) ∧
    (∀ l ∈ [("1. e4 e5\n".data : Line), "2. Nf3 Nc6\n".data],
      l ≠ ['\n'] ∧ l.head? ≠ some '[') ∧
    ∃ r, get_game_data_lichess ["Movetext"] none
        (('[' :: "Event \"A\"]\n".data) ::
          ([("1. e4 e5\n".data : Line), "2. Nf3 Nc6\n".data] ++ [('[' :: "Event \"B\"]\n".data)])) =
        .ok [r] ∧
      r.lookup "Movetext" = some (String.mk (pyRstrip "2. Nf3 Nc6\n".data)) :=
  ⟨by decide, by decide,
   c10_movetext_last_line ["Movetext"] "Event \"A\"]\n".data "Event \"B\"]\n".data "A" "B"
     [("1. e4 e5\n".data : Line), "2. Nf3 Nc6\n".data] "2. Nf3 Nc6\n".data
     (by decide) (by rfl) (by decide) (by rfl) (by rfl)⟩

/-! ### Fetch engine lemmas -/

theorem threadLoop_nil {α β : Type} [DecidableEq α] (op : Op α β) (mw fuel : Nat)
    (cnt : α → Nat) (res : List β) :
    threadLoop op mw fuel cnt res [] = .ok (some res) := by
  cases fuel <;> rfl

theorem procItems_all_ok {α β : Type} [DecidableEq α] (op : Op α β) (g : α → β) :
    ∀ (c : List α), (∀ x ∈ c, ∀ m, op x m = .ok (g x)) →
      ∀ st : AttSt α β, ∃ cnt2,
        procItems op st c = .ok ⟨cnt2, st.results ++ c.map g, st.failed, st.excDeleted⟩ := by
  intro c
  induction c with
  | nil =>
    intro _ st
    exact ⟨st.cnt, by simp [procItems]⟩
  | cons x xs ih =>
    intro hc st
    have hpi : procItem op st x = .ok ⟨fun y => if y = x then st.cnt x + 1 else st.cnt y,
        st.results ++ [g x], st.failed, st.excDeleted⟩ := by
      simp [procItem, hc x (List.mem_cons_self x xs) (st.cnt x)]
    obtain ⟨cnt2, hrun⟩ := ih (fun y hy => hc y (List.mem_cons_of_mem x hy))
      ⟨fun y => if y = x then st.cnt x + 1 else st.cnt y,
        st.results ++ [g x], st.failed, st.excDeleted⟩
    refine ⟨cnt2, ?_⟩
    simp only [procItems, hpi]
    rw [hrun]
    simp

theorem procChunks_all_ok {α β : Type} [DecidableEq α] (op : Op α β) (g : α → β) :
    ∀ (cs : List (List α)), (∀ x ∈ cs.flatten, ∀ m, op x m = .ok (g x)) →
      ∀ st : AttSt α β, st.excDeleted = false → ∃ cnt2,
        procChunks op cs st = .ok ⟨cnt2, st.results ++ cs.flatten.map g, st.failed, false⟩ := by
  intro cs
  induction cs with
  | nil =>
    intro _ st hf
    refine ⟨st.cnt, ?_⟩
    simp [procChunks, ← hf]
  | cons c cs ih =>
    intro hc st hf
    have hsub1 : ∀ x ∈ c, ∀ m, op x m = .ok (g x) := fun x hx =>
      hc x (by rw [List.flatten_cons]; exact List.mem_append_left _ hx)
    have hsub2 : ∀ x ∈ cs.flatten, ∀ m, op x m = .ok (g x) := fun x hx =>
      hc x (by rw [List.flatten_cons]; exact List.mem_append_right _ hx)
    obtain ⟨cnt1, hrun1⟩ := procItems_all_ok op g c hsub1 st
    rw [hf] at hrun1
    obtain ⟨cnt2, hrun2⟩ :=
      ih hsub2 ⟨cnt1, st.results ++ c.map g, st.failed, false⟩ rfl
    have hstep : procChunks op (c :: cs) st =
        procChunks op cs ⟨cnt1, st.results ++ c.map g, st.failed, false⟩ := by
      simp [procChunks, hf, hrun1]
    refine ⟨cnt2, ?_⟩
    rw [hstep, hrun2]
    simp

/-! ### Claim theorems for the batch fetch engine -/

/-- Claim C2 (code bug): the eventual-retry claim fails on the code as
soon as a rate-limited item is caught in a non-final chunk.  With
`max_workers = 1`, items `[2, 1]` and `opC2` — where every item
eventually succeeds and item 2 is rate-limited exactly once, i.e. the
claim's hypothesis — the first chunk's 429 handler exits and thereby
deletes the shadowed executor binding `exc`, so submitting the second
chunk raises NameError: the call crashes instead of retrying item 2 to
success, and no result list containing its success value is ever
returned. -/
theorem c2_rate_limited_crashes_next_chunk :
    thread opC2 1 0 [2, 1] = .error .nameError := by rfl

/-- Claim C3 (code bug): the not-found-items-are-dropped claim fails on
the code for multi-chunk inputs, which the claim explicitly covers.
With `max_workers = 2`, items `[0, 1, 2]` and `opC3` — item 1 always
HTTP 404, all other items eventually succeed — handling the 404 in the
first chunk deletes the shadowed executor binding `exc`, so submitting
the second chunk raises NameError: the call crashes instead of
completing successfully, although the function's own docstring says
404 errors "are silently ignored". -/
theorem c3_not_found_crashes_next_chunk :
    thread opC3 2 0 [0, 1, 2] = .error .nameError := by rfl

/-- Claim C4: when every invocation of the operation succeeds, `thread`
returns — with any retry budget, since no retry pass is needed — a
list whose contents regarded as a set equal the image of the operation
over the input items: no item's result is lost and nothing else is
added (the order of the returned list is not constrained by the
claim, and indeed the engine does not guarantee one).  Under the
all-success hypothesis no HTTPError handler ever runs, so the
executor binding is never deleted and the crash path is unreachable. -/
theorem c4_all_success_image {α β : Type} [DecidableEq α] (op : Op α β) (mw : Nat)
    (hmw : 0 < mw) (data : List α) (g : α → β)
    (hb : ∀ x ∈ data, ∀ m, op x m = .ok (g x)) (fuel : Nat) :
    ∃ out, thread op mw fuel data = .ok (some out) ∧
      ∀ y, y ∈ out ↔ ∃ x ∈ data, g x = y := by
  have hflat : (_chunks data mw).flatten = data :=
    chunksAux_flatten mw hmw data.length data le_rfl
  obtain ⟨cnt2, hrun⟩ := procChunks_all_ok op g (_chunks data mw)
    (by rw [hflat]; exact hb) ⟨fun _ => 0, [], [], false⟩ rfl
  rw [hflat] at hrun
  refine ⟨data.map g, ?_, ?_⟩
  · unfold thread thread_attempt_get
    rw [hrun]
    show threadLoop op mw fuel cnt2 ([] ++ data.map g) [] = .ok (some (data.map g))
    exact threadLoop_nil op mw fuel cnt2 (data.map g)
  · intro y
    exact List.mem_map

theorem c4_all_success_image_witness :
    (∀ x ∈ [3, 4, 3], ∀ m, opC4 x m = .ok (x * 10)) ∧
    ∃ out, thread opC4 2 5 [3, 4, 3] = .ok (some out) ∧
      ∀ y, y ∈ out ↔ ∃ x ∈ [3, 4, 3], x * 10 = y :=
  ⟨fun x _ m => rfl,
   c4_all_success_image opC4 2 (by decide) [3, 4, 3] (fun x => x * 10) (fun x _ m => rfl) 5⟩

/-- Claim C8 (code bug): the fatal-error-propagation claim fails on the
code when a classified error is caught in an earlier chunk than the
fatal item.  With `max_workers = 1`, items `[0, 1]` and `opC8` — item
0 always HTTP 404, item 1's operation failing with the unclassified
HTTP error 500 — the 404 handler of the first chunk deletes the
shadowed executor binding `exc`, so submitting the second chunk raises
NameError before item 1's operation is ever invoked: the call
terminates with NameError, not by propagating the non-classified HTTP
error as the claim requires. -/
theorem c8_fatal_masked_by_name_error :
    thread opC8 1 0 [0, 1] = .error .nameError := by rfl

end ChessStats
